import Mathlib

/-!
Shallow embedding of the additive-noise UKF core from `ukfLib.c` / `ukfLib.h`
(repository vaccovecrana/UKF_STM32F4), over exact rational arithmetic.

Modelling conventions:
* `float` values are modelled as `ℚ`; `uint8_t` counters as `Nat`, with an
  explicit `% 256` where the C code truncates (`par.sLen = 2*xLen + 1`).
* A C `tMatrix` buffer is a flat row-major `List ℚ`; a possibly-NULL buffer is
  an `Option (List ℚ)`.  Reads are `List.getD` (C reads through raw pointers),
  writes are `List.set` via the `writes` helper; the checked variant
  `setChecked` returns `none` on an out-of-bounds index.
* `ukf_init` (lines 251-276 of ukfLib.c) wires several logical matrices onto
  the same physical buffer: `prev.x_p = predict.x_m = update.x`
  (x_system_states), `prev.X_p = predict.X_m` (X_sigma_points),
  `prev.Pxx_p = predict.P_m = update.Pxx` (Pxx_error_covariance) and
  `input.u = prev.u_p` (u_system_input, line 256).  The filter state
  `UKFState` therefore carries one field per physical buffer.
* The dense matrix library `mtxLib` is not part of the sources; its simple
  operations (copy, zero, scalar multiply, add, subtract, multiply,
  multiply-by-transpose, identity) are modelled from the spec's matrix-algebra
  contract, while the numerically nontrivial ones (lower Cholesky
  factorization, inversion, the C `sqrt`) are kept as parameters of a
  `MtxLib` structure, so every theorem below holds for any implementation of
  that contract.
-/

/-- Sequential in-place writes: fold `List.set` over a list of
(flat index, value) pairs, mirroring a C loop of `dst[idx] = v;` stores. -/
def writes (X : List ℚ) (ps : List (Nat × ℚ)) : List ℚ :=
  ps.foldl (fun X p => X.set p.1 p.2) X

/-- Bounds-checked store: `none` when the flat index falls outside the
buffer, used by the checked variant of the observation transform. -/
def setChecked (l : List ℚ) (i : Nat) (v : ℚ) : Option (List ℚ) :=
  if i < l.length then some (l.set i v) else none

/-- Modelled from the spec: `mtxLib` zero-fill (the library sources are not
under src/; §6 gives the contract). -/
def mtx_zeros (l : List ℚ) : List ℚ :=
  l.map fun _ => 0

/-- Modelled from the spec: `mtxLib` in-place scalar multiply. -/
def mtx_mul_scalar (s : ℚ) (l : List ℚ) : List ℚ :=
  l.map fun a => a * s

/-- Modelled from the spec: `mtxLib` elementwise add (in place into the
first operand). -/
def mtx_add (A B : List ℚ) : List ℚ :=
  List.zipWith (· + ·) A B

/-- Modelled from the spec: `mtxLib` elementwise subtract (in place into the
first operand). -/
def mtx_sub (A B : List ℚ) : List ℚ :=
  List.zipWith (· - ·) A B

/-- Modelled from the spec: `mtxLib` matrix multiply of an `n × m` matrix by
an `m × p` matrix, flat row-major. -/
def mtx_mul (n m p : Nat) (A B : List ℚ) : List ℚ :=
  (List.range (n * p)).map fun t =>
    (List.range m).foldl
      (fun acc k => acc + A.getD (m * (t / p) + k) 0 * B.getD (p * k + t % p) 0) 0

/-- Modelled from the spec: `mtxLib` matrix multiply with the second operand
implicitly transposed: an `n × m` matrix times the transpose of a `p × m`
matrix. -/
def mtx_mul_src2tr (n m p : Nat) (A B : List ℚ) : List ℚ :=
  (List.range (n * p)).map fun t =>
    (List.range m).foldl
      (fun acc k => acc + A.getD (m * (t / p) + k) 0 * B.getD (m * (t % p) + k) 0) 0

/-- Modelled from the spec: `mtxLib` identity fill for an `n × n` matrix. -/
def mtx_identity (n : Nat) : List ℚ :=
  (List.range (n * n)).map fun t => if t / n = t % n then (1 : ℚ) else 0

/-- External `mtxLib` operations whose numerical content the spec leaves out
of scope: lower Cholesky factorization (in place, with a success status,
modelled as `Option`), in-place Gauss-Jordan inversion (first argument the
scratch copy being reduced, second the identity buffer that accumulates the
inverse; the pair of resulting buffer contents is returned), and the C
`sqrt`.  All theorems are parametric in this structure. -/
structure MtxLib where
  chol : List ℚ → Option (List ℚ)
  inv : List ℚ → List ℚ → List ℚ × List ℚ
  sqrtf : ℚ → ℚ

/-- A C `tMatrix`: row/column metadata plus a possibly-NULL flat buffer. -/
structure CMat where
  nrow : Nat
  ncol : Nat
  val : Option (List ℚ)

/-- Buffer contents of a `CMat`, empty when the pointer is NULL. -/
def cval (m : CMat) : List ℚ :=
  m.val.getD []

/-- A per-state prediction callback (`tPredictFcn`): receives the previous
input vector, the previous sigma points, the target predicted sigma points,
the sigma-column index and the timestep, and per the spec's callback
contract produces the one scalar written at that state's row and the given
sigma column. -/
abbrev PredictFcn := Option (List ℚ) → List ℚ → List ℚ → Nat → ℚ → ℚ

/-- A per-output observation callback (`tObservFcn`): receives the current
input vector, the predicted sigma points, the target measurement sigma
points and the sigma-column index, and produces the one scalar written at
that output's row and the given sigma column. -/
abbrev ObservFcn := Option (List ℚ) → List ℚ → List ℚ → Nat → ℚ

/-- The configuration handed to `ukf_init` (`tUkfMatrix`).  `tMatrixBool`
buffers hold flags, modelled as `Option (List Nat)`. -/
structure UkfCfg where
  Sc_vector : CMat
  Wm_weight_vector : CMat
  Wc_weight_vector : CMat
  x_system_states : CMat
  x_system_states_ic : CMat
  x_system_states_limits : CMat
  x_system_states_limits_enable : Option (List Nat)
  x_system_states_correction : CMat
  u_system_input : CMat
  u_prev_system_input : CMat
  X_sigma_points : CMat
  Y_sigma_points : CMat
  y_predicted_mean : CMat
  y_meas : CMat
  Pyy_out_covariance : CMat
  Pyy_out_covariance_copy : CMat
  Ryy0_init_out_covariance : CMat
  Pxy_cross_covariance : CMat
  Pxx_error_covariance : CMat
  Pxx0_init_error_covariance : CMat
  Qxx_process_noise_cov : CMat
  K_kalman_gain : CMat
  I_identity_matrix : CMat
  Pxx_covariance_correction : CMat
  fcnPredict : List (Option PredictFcn)
  fcnObserve : List (Option ObservFcn)
  dT : ℚ

/-- The filter working state (`tUKF`) after `ukf_init` has wired the
sub-structures: one field per physical buffer (see the aliasing note in the
file header), plus the parameter block. -/
structure UKFState where
  xLen : Nat
  yLen : Nat
  sLen : Nat
  alpha : ℚ
  betha : ℚ
  kappa : ℚ
  lambda : ℚ
  dT : ℚ
  Wm : List ℚ
  Wc : List ℚ
  Qxx : List ℚ
  Ryy0 : List ℚ
  Pxx0 : List ℚ
  x0 : List ℚ
  xLim : CMat
  xLimEnbl : Option (List Nat)
  u : Option (List ℚ)
  y : List ℚ
  x : List ℚ
  X : List ℚ
  P : List ℚ
  Y : List ℚ
  ym : List ℚ
  Pyy : List ℚ
  Pyy_cpy : List ℚ
  Pxy : List ℚ
  K : List ℚ
  Iyy : List ℚ
  x_corr : List ℚ
  Pxx_corr : List ℚ
  fPredict : List (Option PredictFcn)
  fObserv : List (Option ObservFcn)

/-- Clamp a state into its permitted range (`ukf_state_limiter`,
lines 28-42): active only when the enable flag is nonzero; the lower bound
takes precedence. -/
def ukf_state_limiter (state xmin xmax : ℚ) (enbl : Nat) : ℚ :=
  if enbl ≠ 0 then
    if xmin > state then xmin else if xmax < state then xmax else state
  else state

/-- The (min, max, enable) triple the sigma-point generator reads for state
`i` (lines 341-345 and 359-363): zeros unless both limiter arrays are
configured. -/
def limsAt (st : UKFState) (i : Nat) : ℚ × ℚ × Nat :=
  match st.xLimEnbl, st.xLim.val with
  | some enbl, some lim =>
      (lim.getD (st.xLim.ncol * i + 0) 0, lim.getD (st.xLim.ncol * i + 1) 0, enbl.getD i 0)
  | _, _ => (0, 0, 0)

/-- Clamp value `v` with state `i`'s limiter configuration. -/
def clampAt (st : UKFState) (i : Nat) (v : ℚ) : ℚ :=
  ukf_state_limiter v (limsAt st i).1 (limsAt st i).2.1 (limsAt st i).2.2

/-- Effective state count: `par.xLen` is a `uint8_t` assigned from
`x_system_states.nrow` (line 208). -/
def cfgXLen (cfg : UkfCfg) : Nat :=
  cfg.x_system_states.nrow % 256

/-- Effective measurement count: `par.yLen` assigned from
`y_predicted_mean.nrow` (line 209). -/
def cfgYLen (cfg : UkfCfg) : Nat :=
  cfg.y_predicted_mean.nrow % 256

/-- Effective sigma-point count: `par.sLen = 2 * par.xLen + 1` stored into a
`uint8_t` (line 210). -/
def cfgSLen (cfg : UkfCfg) : Nat :=
  (2 * cfgXLen cfg + 1) % 256

/-- Tuning parameter `alpha`, read from `Sc_vector.val[alphaIdx]` (line 205). -/
def cfgAlpha (cfg : UkfCfg) : ℚ :=
  (cval cfg.Sc_vector).getD 0 0

/-- Tuning parameter `betha`, read from `Sc_vector.val[bethaIdx]` (line 206). -/
def cfgBetha (cfg : UkfCfg) : ℚ :=
  (cval cfg.Sc_vector).getD 1 0

/-- Tuning parameter `kappa`, read from `Sc_vector.val[kappaIdx]` (line 207). -/
def cfgKappa (cfg : UkfCfg) : ℚ :=
  (cval cfg.Sc_vector).getD 2 0

/-- Scaling parameter (lines 229-231):
`lambda = alpha^2 * (xLen + kappa) - xLen`. -/
def cfgLambda (cfg : UkfCfg) : ℚ :=
  cfgAlpha cfg * cfgAlpha cfg * ((cfgXLen cfg : ℚ) + cfgKappa cfg) - (cfgXLen cfg : ℚ)

/-- First mean weight (line 237): `Wm0 = lambda / (xLen + lambda)`. -/
def cfgWm0 (cfg : UkfCfg) : ℚ :=
  cfgLambda cfg / ((cfgXLen cfg : ℚ) + cfgLambda cfg)

/-- Tail weight (line 243): `1 / (2 * (xLen + lambda))`. -/
def cfgWi (cfg : UkfCfg) : ℚ :=
  1 / (2 * ((cfgXLen cfg : ℚ) + cfgLambda cfg))

/-- Dimension validator (`ukf_dimension_check`, lines 54-181), reading the
filter fields through the `ukf_init` wiring (each `pUkf` matrix is a by-value
copy of the corresponding `cfg` matrix; in particular both `input.u` and
`prev.u_p` are copies of `cfg.u_system_input`, lines 251 and 256).  Returns
0 for OK, nonzero for failure.  Note the `&&` (rather than `||`) joining the
two shape tests in the Wm/Wc block (lines 81-82) and in the Pyy/Pyy_cpy
block (lines 145-146). -/
def ukf_dimension_check (cfg : UkfCfg) : Nat :=
  let stateLen := cfgXLen cfg
  let sigmaLen := cfgSLen cfg
  let measLen := cfgYLen cfg
  let r : Nat := 0
  let r := match cfg.u_system_input.val with
    | some _ =>
        if (cfg.u_system_input.nrow ≠ stateLen ∨ cfg.u_system_input.ncol ≠ 1) ∧
           (cfg.u_system_input.nrow ≠ stateLen ∨ cfg.u_system_input.ncol ≠ 1) then
          r ||| 1
        else r
    | none => r
  let r := match cfg.y_meas.val with
    | some _ =>
        if cfg.y_meas.nrow ≠ measLen ∨ cfg.y_meas.ncol ≠ 1 then r ||| 1 else r
    | none => r ||| 1
  let r := match cfg.Wm_weight_vector.val, cfg.Wc_weight_vector.val with
    | some _, some _ =>
        if (cfg.Wm_weight_vector.nrow ≠ 1 ∨ cfg.Wm_weight_vector.ncol ≠ sigmaLen) ∧
           (cfg.Wc_weight_vector.nrow ≠ 1 ∨ cfg.Wc_weight_vector.ncol ≠ sigmaLen) then
          r ||| 1
        else r
    | _, _ => r ||| 1
  let r := match cfg.Pxx0_init_error_covariance.val with
    | some _ =>
        if cfg.Pxx0_init_error_covariance.nrow ≠ stateLen ∨
           cfg.Pxx0_init_error_covariance.ncol ≠ stateLen then r ||| 1 else r
    | none => r ||| 1
  let r := match cfg.Qxx_process_noise_cov.val with
    | some _ =>
        if cfg.Qxx_process_noise_cov.nrow ≠ stateLen ∨
           cfg.Qxx_process_noise_cov.ncol ≠ stateLen then r ||| 1 else r
    | none => r ||| 1
  let r := match cfg.Ryy0_init_out_covariance.val with
    | some _ =>
        if cfg.Ryy0_init_out_covariance.nrow ≠ measLen ∨
           cfg.Ryy0_init_out_covariance.ncol ≠ measLen then r ||| 1 else r
    | none => r ||| 1
  let r := match cfg.X_sigma_points.val with
    | some _ =>
        if cfg.X_sigma_points.nrow ≠ stateLen ∨
           cfg.X_sigma_points.ncol ≠ sigmaLen then r ||| 1 else r
    | none => r ||| 1
  let r := match cfg.Y_sigma_points.val with
    | some _ =>
        if cfg.Y_sigma_points.nrow ≠ measLen ∨
           cfg.Y_sigma_points.ncol ≠ sigmaLen then r ||| 1 else r
    | none => r ||| 1
  let r := match cfg.Pxx_error_covariance.val with
    | some _ =>
        if cfg.Pxx_error_covariance.nrow ≠ stateLen ∨
           cfg.Pxx_error_covariance.ncol ≠ stateLen then r ||| 1 else r
    | none => r ||| 1
  let r := match cfg.Pyy_out_covariance.val, cfg.Pyy_out_covariance_copy.val with
    | some _, some _ =>
        if (cfg.Pyy_out_covariance.nrow ≠ measLen ∨
            cfg.Pyy_out_covariance.ncol ≠ measLen) ∧
           (cfg.Pyy_out_covariance_copy.nrow ≠ measLen ∨
            cfg.Pyy_out_covariance_copy.ncol ≠ measLen) then
          r ||| 1
        else r
    | _, _ => r ||| 1
  let r := match cfg.Pxy_cross_covariance.val with
    | some _ =>
        if cfg.Pxy_cross_covariance.nrow ≠ stateLen ∨
           cfg.Pxy_cross_covariance.ncol ≠ measLen then r ||| 1 else r
    | none => r ||| 1
  let r := match cfg.Pxx_covariance_correction.val with
    | some _ =>
        if cfg.Pxx_covariance_correction.nrow ≠ stateLen ∨
           cfg.Pxx_covariance_correction.ncol ≠ stateLen then r ||| 1 else r
    | none => r ||| 1
  let r := match cfg.K_kalman_gain.val with
    | some _ =>
        if cfg.K_kalman_gain.nrow ≠ stateLen ∨
           cfg.K_kalman_gain.ncol ≠ measLen then r ||| 1 else r
    | none => r ||| 1
  r

/-- Weight-vector fill loop of `ukf_init` (lines 242-245): for columns
`1 .. n`, write `wv` into `Wm` and copy the freshly written `Wm` entry into
`Wc`. -/
def ukf_weight_fold (wv : ℚ) (n : Nat) (p : List ℚ × List ℚ) : List ℚ × List ℚ :=
  (List.range n).foldl
    (fun p c =>
      let wm := p.1.set (c + 1) wv
      (wm, p.2.set (c + 1) (wm.getD (c + 1) 0))) p

/-- Weight-vector computation of `ukf_init` (lines 235-248): performed only
when the supplied weight-vector column counts satisfy
`WmLen == sLen && WcLen == WmLen`; otherwise the buffers are left as
supplied (the empty C else-branch at line 247). -/
def ukf_init_weights (cfg : UkfCfg) : List ℚ × List ℚ :=
  if cfg.Wm_weight_vector.ncol = cfgSLen cfg ∧
     cfg.Wc_weight_vector.ncol = cfg.Wm_weight_vector.ncol then
    ukf_weight_fold (cfgWi cfg) (cfg.Wm_weight_vector.ncol - 1)
      ((cval cfg.Wm_weight_vector).set 0 (cfgWm0 cfg),
       (cval cfg.Wc_weight_vector).set 0
         (cfgWm0 cfg + (1 - cfgAlpha cfg * cfgAlpha cfg + cfgBetha cfg)))
  else (cval cfg.Wm_weight_vector, cval cfg.Wc_weight_vector)

/-- Filter initialization (`ukf_init`, lines 190-281): parameter block,
limiter sanity rule, scaling parameter `lambda`, weight vectors (only when
the supplied weight lengths equal `sLen`), buffer wiring (with the aliasing
described in the header; in particular `prev.u_p` is wired to
`u_system_input`, line 256, and `u_prev_system_input` is never used), the
two initial copies `Pxx_p := Pxx0` and `x_p := x0`, and the dimension-check
status as result. -/
def ukf_init (cfg : UkfCfg) : UKFState × Nat :=
  let xLimEnbl : Option (List Nat) :=
    match cfg.x_system_states_limits_enable, cfg.x_system_states_limits.val with
    | some enbl, some lim =>
        some ((List.range cfg.x_system_states_limits.nrow).foldl
          (fun e xIdx =>
            let xMin := lim.getD (cfg.x_system_states_limits.ncol * xIdx + 0) 0
            let xMax := lim.getD (cfg.x_system_states_limits.ncol * xIdx + 1) 0
            let xEps := lim.getD (cfg.x_system_states_limits.ncol * xIdx + 2) 0
            if e.getD xIdx 0 ≠ 0 ∧ xMin + xEps > xMax then e.set xIdx 0 else e) enbl)
    | e, _ => e
  ({ xLen := cfgXLen cfg
     yLen := cfgYLen cfg
     sLen := cfgSLen cfg
     alpha := cfgAlpha cfg
     betha := cfgBetha cfg
     kappa := cfgKappa cfg
     lambda := cfgLambda cfg
     dT := cfg.dT
     Wm := (ukf_init_weights cfg).1
     Wc := (ukf_init_weights cfg).2
     Qxx := cval cfg.Qxx_process_noise_cov
     Ryy0 := cval cfg.Ryy0_init_out_covariance
     Pxx0 := cval cfg.Pxx0_init_error_covariance
     x0 := cval cfg.x_system_states_ic
     xLim := cfg.x_system_states_limits
     xLimEnbl := xLimEnbl
     u := cfg.u_system_input.val
     y := cval cfg.y_meas
     x := cval cfg.x_system_states_ic
     X := cval cfg.X_sigma_points
     P := cval cfg.Pxx0_init_error_covariance
     Y := cval cfg.Y_sigma_points
     ym := cval cfg.y_predicted_mean
     Pyy := cval cfg.Pyy_out_covariance
     Pyy_cpy := cval cfg.Pyy_out_covariance_copy
     Pxy := cval cfg.Pxy_cross_covariance
     K := cval cfg.K_kalman_gain
     Iyy := cval cfg.I_identity_matrix
     x_corr := cval cfg.x_system_states_correction
     Pxx_corr := cval cfg.Pxx_covariance_correction
     fPredict := cfg.fcnPredict
     fObserv := cfg.fcnObserve }, ukf_dimension_check cfg)

/-- The write list of the first loop of `ukf_sigmapoint` (lines 336-349):
column 0 of the sigma-point matrix receives the clamped previous mean. -/
def sigmaCol0Pairs (st : UKFState) : List (Nat × ℚ) :=
  (List.range st.xLen).map fun xIdx =>
    (st.sLen * xIdx, clampAt st xIdx (st.x.getD xIdx 0))

/-- The scaled square root used for sigma-point spread (line 351): the
in-place result of `mtx_mul_scalar(&Pxx_p, sqrt(xLen + lambda))` applied to
the lower Cholesky factor. -/
def sigmaScaledS (lib : MtxLib) (st : UKFState) (cholP : List ℚ) : List ℚ :=
  mtx_mul_scalar (lib.sqrtf ((st.xLen : ℚ) + st.lambda)) cholP

/-- The write list of the second loop nest of `ukf_sigmapoint`
(lines 353-371), the nest over `sigmaIdx = 1 .. sLen-1` (outer) and
`xIdx = 0 .. xLen-1` (inner) flattened in iteration order
(`t = (sigmaIdx - 1) * xLen + xIdx`). -/
def sigmaRestPairs (st : UKFState) (S : List ℚ) : List (Nat × ℚ) :=
  (List.range ((st.sLen - 1) * st.xLen)).map fun t =>
    let sigmaIdx := t / st.xLen + 1
    let xIdx := t % st.xLen
    (st.sLen * xIdx + sigmaIdx,
     if sigmaIdx ≤ st.xLen then
       clampAt st xIdx (st.x.getD xIdx 0 + S.getD (st.xLen * xIdx + (sigmaIdx - 1)) 0)
     else
       clampAt st xIdx (st.x.getD xIdx 0 - S.getD (st.xLen * xIdx + (sigmaIdx - st.xLen - 1)) 0))

/-- Sigma-point generator (`ukf_sigmapoint`, lines 320-375).  On Cholesky
failure the state is returned as is (the C else-branch at line 373 is
empty); on success, column 0 of `X_p` receives the clamped previous mean,
the factor is scaled by `sqrt(xLen + lambda)`, and columns `1 .. sLen-1`
receive the mean plus (for `sigmaIdx ≤ xLen`) or minus (otherwise) the
corresponding factor column. -/
def ukf_sigmapoint (lib : MtxLib) (st : UKFState) : UKFState :=
  match lib.chol st.P with
  | none => st
  | some cholP =>
      let X1 := writes st.X (sigmaCol0Pairs st)
      let S := sigmaScaledS lib st cholP
      let X2 := writes X1 (sigmaRestPairs st S)
      { st with P := S, X := X2 }

/-- Prediction transform (`ukf_mean_pred_state`, lines 384-405): for each
state row, zero the mean entry, then per sigma column invoke the state's
prediction callback when assigned (writing its scalar at that row and
column of the shared `X` buffer) and accumulate the weighted mean.  The
previous-input argument handed to each callback is the state's `u` buffer
(which `ukf_init` wired to `u_system_input`). -/
def ukf_mean_pred_state (st : UKFState) : UKFState :=
  let r := (List.range st.xLen).foldl
    (fun (p : List ℚ × List ℚ) xIdx =>
      let p := (p.1.set xIdx 0, p.2)
      (List.range st.sLen).foldl
        (fun (q : List ℚ × List ℚ) sigmaIdx =>
          let X :=
            match st.fPredict.getD xIdx none with
            | some f => q.2.set (st.sLen * xIdx + sigmaIdx) (f st.u q.2 q.2 sigmaIdx st.dT)
            | none => q.2
          (q.1.set xIdx
             (q.1.getD xIdx 0 + st.Wm.getD sigmaIdx 0 * X.getD (st.sLen * xIdx + sigmaIdx) 0),
           X)) p) (st.x, st.X)
  { st with x := r.1, X := r.2 }

/-- Observation transform (`ukf_mean_pred_output`, lines 415-458): zero the
predicted output mean, seed the predicted covariance with `Qxx`, and per
sigma column accumulate the predicted-state covariance, fill the
measurement sigma points through the observation callbacks (an absent
callback stores 0 at the flat index `sLen * sigmaIdx + yIdx`, exactly as
line 452 does), and accumulate the predicted output mean from the entry at
flat index `sLen * yIdx + sigmaIdx`. -/
def ukf_mean_pred_output (st : UKFState) : UKFState :=
  let r := (List.range st.sLen).foldl
    (fun (acc : List ℚ × List ℚ × List ℚ) sigmaIdx =>
      let P := (List.range st.xLen).foldl
        (fun P xIdx =>
          (List.range st.xLen).foldl
            (fun P xTrIdx =>
              let term1 := st.X.getD (st.sLen * xIdx + sigmaIdx) 0 - st.x.getD xIdx 0
              let term2 := st.X.getD (st.sLen * xTrIdx + sigmaIdx) 0 - st.x.getD xTrIdx 0
              P.set (st.xLen * xIdx + xTrIdx)
                (P.getD (st.xLen * xIdx + xTrIdx) 0 + st.Wc.getD sigmaIdx 0 * term1 * term2))
            P) acc.1
      let yq := (List.range st.yLen).foldl
        (fun (q : List ℚ × List ℚ) yIdx =>
          let Y :=
            match st.fObserv.getD yIdx none with
            | some f => q.1.set (st.sLen * yIdx + sigmaIdx) (f st.u st.X q.1 sigmaIdx)
            | none => q.1.set (st.sLen * sigmaIdx + yIdx) 0
          (Y, q.2.set yIdx
                (q.2.getD yIdx 0 + st.Wm.getD sigmaIdx 0 * Y.getD (st.sLen * yIdx + sigmaIdx) 0)))
        (acc.2.1, acc.2.2)
      (P, yq.1, yq.2)) (st.Qxx, st.Y, mtx_zeros st.ym)
  { st with P := r.1, Y := r.2.1, ym := r.2.2 }

/-- Checked observation transform: the same computation as
`ukf_mean_pred_output` with the two `Y` stores going through `setChecked`,
so an out-of-bounds flat index yields `none`. -/
def ukf_mean_pred_output_chk (st : UKFState) : Option UKFState :=
  let r := (List.range st.sLen).foldl
    (fun (acc : Option (List ℚ × List ℚ × List ℚ)) sigmaIdx =>
      acc.bind fun acc =>
        let P := (List.range st.xLen).foldl
          (fun P xIdx =>
            (List.range st.xLen).foldl
              (fun P xTrIdx =>
                let term1 := st.X.getD (st.sLen * xIdx + sigmaIdx) 0 - st.x.getD xIdx 0
                let term2 := st.X.getD (st.sLen * xTrIdx + sigmaIdx) 0 - st.x.getD xTrIdx 0
                P.set (st.xLen * xIdx + xTrIdx)
                  (P.getD (st.xLen * xIdx + xTrIdx) 0 + st.Wc.getD sigmaIdx 0 * term1 * term2))
              P) acc.1
        let yq := (List.range st.yLen).foldl
          (fun (q : Option (List ℚ × List ℚ)) yIdx =>
            q.bind fun q =>
              let Yo :=
                match st.fObserv.getD yIdx none with
                | some f => setChecked q.1 (st.sLen * yIdx + sigmaIdx) (f st.u st.X q.1 sigmaIdx)
                | none => setChecked q.1 (st.sLen * sigmaIdx + yIdx) 0
              Yo.map fun Y =>
                (Y, q.2.set yIdx
                      (q.2.getD yIdx 0 + st.Wm.getD sigmaIdx 0 * Y.getD (st.sLen * yIdx + sigmaIdx) 0)))
          (some (acc.2.1, acc.2.2))
        yq.map fun yq => (P, yq.1, yq.2)) (some (st.Qxx, st.Y, mtx_zeros st.ym))
  r.map fun r => { st with P := r.1, Y := r.2.1, ym := r.2.2 }

/-- Covariance engine (`ukf_calc_covariances`, lines 466-507): seed `Pyy`
with `Ryy0`, zero `Pxy`, then per sigma column accumulate the predicted
output covariance and the state/output cross-covariance. -/
def ukf_calc_covariances (st : UKFState) : UKFState :=
  let r := (List.range st.sLen).foldl
    (fun (acc : List ℚ × List ℚ) sigmaIdx =>
      let Pyy := (List.range st.yLen).foldl
        (fun Pyy yIdx =>
          (List.range st.yLen).foldl
            (fun Pyy yTrIdx =>
              let term1 := st.Y.getD (st.sLen * yIdx + sigmaIdx) 0 - st.ym.getD yIdx 0
              let term2 := st.Y.getD (st.sLen * yTrIdx + sigmaIdx) 0 - st.ym.getD yTrIdx 0
              Pyy.set (st.yLen * yIdx + yTrIdx)
                (Pyy.getD (st.yLen * yIdx + yTrIdx) 0 + st.Wc.getD sigmaIdx 0 * term1 * term2))
            Pyy) acc.1
      let Pxy := (List.range st.xLen).foldl
        (fun Pxy xIdx =>
          (List.range st.yLen).foldl
            (fun Pxy yTrIdx =>
              let term1 := st.X.getD (st.sLen * xIdx + sigmaIdx) 0 - st.x.getD xIdx 0
              let term2 := st.Y.getD (st.sLen * yTrIdx + sigmaIdx) 0 - st.ym.getD yTrIdx 0
              Pxy.set (st.yLen * xIdx + yTrIdx)
                (Pxy.getD (st.yLen * xIdx + yTrIdx) 0 + st.Wc.getD sigmaIdx 0 * term1 * term2))
            Pxy) acc.2
      (Pyy, Pxy)) (st.Ryy0, mtx_zeros st.Pxy)
  { st with Pyy := r.1, Pxy := r.2 }

/-- Measurement update (`ukf_meas_update`, lines 517-553): identity fill,
scratch copy of `Pyy`, inversion of the scratch against the identity, gain
`K = Pxy * inv(Pyy)`, in-place innovation `y -= y_m`, correction
`x_corr = K * (y - y_m)`, posterior mean `x += x_corr`, the intermediate
product `K * Pyy` stored over `Pxy`, the correction `K * Pyy * K'` and the
posterior covariance `P -= Pxx_corr` (all through the buffer aliasing of
`ukf_init`). -/
def ukf_meas_update (lib : MtxLib) (st : UKFState) : UKFState :=
  let Iyy0 := mtx_identity st.yLen
  let Pyy_cpy0 := st.Pyy
  let invr := lib.inv Pyy_cpy0 Iyy0
  let K := mtx_mul st.xLen st.yLen st.yLen st.Pxy invr.2
  let y := mtx_sub st.y st.ym
  let x_corr := mtx_mul st.xLen st.yLen 1 K y
  let x := mtx_add st.x x_corr
  let Pxy := mtx_mul st.xLen st.yLen st.yLen K st.Pyy
  let Pxx_corr := mtx_mul_src2tr st.xLen st.yLen st.xLen Pxy K
  let P := mtx_sub st.P Pxx_corr
  { st with Iyy := invr.2, Pyy_cpy := invr.1, K := K, y := y, x_corr := x_corr,
            x := x, Pxy := Pxy, Pxx_corr := Pxx_corr, P := P }

/-- End-of-step previous-input store (`ukf_step`, lines 300-310): when the
system-input vector is configured, copy it element by element into the
previous-input slot.  Since `ukf_init` wired `prev.u_p` and `input.u` to the
same buffer (line 256), this is a self-copy through that one buffer. -/
def ukf_prev_input_copy (st : UKFState) : UKFState :=
  match st.u with
  | some uv =>
      { st with u := some ((List.range uv.length).foldl (fun a i => a.set i (a.getD i 0)) uv) }
  | none => st

/-- Periodic step (`ukf_step`, lines 293-311): the five stages in order,
then the previous-input store. -/
def ukf_step (lib : MtxLib) (st : UKFState) : UKFState :=
  ukf_prev_input_copy (ukf_meas_update lib (ukf_calc_covariances
    (ukf_mean_pred_output (ukf_mean_pred_state (ukf_sigmapoint lib st)))))

/-- Periodic step with the checked observation transform: `none` as soon as
a `Y` store would fall outside the measurement sigma-point buffer. -/
def ukf_step_chk (lib : MtxLib) (st : UKFState) : Option UKFState :=
  (ukf_mean_pred_output_chk (ukf_mean_pred_state (ukf_sigmapoint lib st))).map fun st1 =>
    ukf_prev_input_copy (ukf_meas_update lib (ukf_calc_covariances st1))

/-! ### Concrete fixtures

Closed configurations, library instantiations and states used by the
witnesses, the counterexample and the bug demonstrations below. -/

/-- Build a present (non-NULL) `r x c` matrix. -/
def mkCMat (r c : Nat) (v : List ℚ) : CMat :=
  ⟨r, c, some v⟩

/-- A well-shaped one-state / one-output configuration (`xLen = yLen = 1`,
`sLen = 3`, `alpha = 1`, `beta = 0`, `kappa = 0`).  Its single prediction
callback reproduces the first entry of the previous-input argument it
receives, so a step makes the sigma-point row record which input buffer the
prediction stage was given. -/
def cfgBase : UkfCfg where
  Sc_vector := mkCMat 1 3 [1, 0, 0]
  Wm_weight_vector := mkCMat 1 3 [0, 0, 0]
  Wc_weight_vector := mkCMat 1 3 [0, 0, 0]
  x_system_states := mkCMat 1 1 [0]
  x_system_states_ic := mkCMat 1 1 [2]
  x_system_states_limits := ⟨0, 0, none⟩
  x_system_states_limits_enable := none
  x_system_states_correction := mkCMat 1 1 [0]
  u_system_input := mkCMat 1 1 [5]
  u_prev_system_input := mkCMat 1 1 [99]
  X_sigma_points := mkCMat 1 3 [0, 0, 0]
  Y_sigma_points := mkCMat 1 3 [0, 0, 0]
  y_predicted_mean := mkCMat 1 1 [0]
  y_meas := mkCMat 1 1 [0]
  Pyy_out_covariance := mkCMat 1 1 [0]
  Pyy_out_covariance_copy := mkCMat 1 1 [0]
  Ryy0_init_out_covariance := mkCMat 1 1 [1]
  Pxy_cross_covariance := mkCMat 1 1 [0]
  Pxx_error_covariance := mkCMat 1 1 [1]
  Pxx0_init_error_covariance := mkCMat 1 1 [1]
  Qxx_process_noise_cov := mkCMat 1 1 [0]
  K_kalman_gain := mkCMat 1 1 [0]
  I_identity_matrix := mkCMat 1 1 [0]
  Pxx_covariance_correction := mkCMat 1 1 [0]
  fcnPredict := [some (fun u _ _ _ _ => (u.getD []).getD 0 0)]
  fcnObserve := [some (fun _ X _ s => X.getD s 0)]
  dT := 1

/-- A concrete matrix library: Cholesky always succeeds returning the buffer
unchanged, inversion returns its operand buffers, square root is the
identity. -/
def libId : MtxLib :=
  ⟨fun m => some m, fun a b => (a, b), fun q => q⟩

/-- A concrete matrix library whose Cholesky factorization always fails. -/
def libNone : MtxLib :=
  ⟨fun _ => none, fun a b => (a, b), fun q => q⟩

/-- A concrete matrix library returning the fixed factor `[2]` and the fixed
square-root value 3 (the external contract puts no constraint on the
numerics). -/
def libSig : MtxLib :=
  ⟨fun _ => some [2], fun a b => (a, b), fun _ => 3⟩

/-- A concrete one-state filter state for exercising the sigma-point
generator: previous mean 5, previous covariance `[4]`, stale sigma matrix
`[9, 9, 9]`. -/
def stSig : UKFState :=
  { (ukf_init cfgBase).1 with x := [5], P := [4], X := [9, 9, 9] }

/-- `cfgBase` with the single observation callback left unassigned (NULL). -/
def cfgNoObs : UkfCfg :=
  { cfgBase with fcnObserve := [none] }

/-- A state whose measurement sigma-point buffer holds stale values
`[9, 7, 7]` while the single observation callback is NULL; weights are 1 so
the predicted output mean is the plain sum over sigma columns. -/
def stC5 : UKFState :=
  { (ukf_init cfgNoObs).1 with
      Y := [9, 7, 7], Wm := [1, 1, 1], Wc := [0, 0, 0], x := [0], X := [0, 0, 0] }

/-- `cfgBase` with only the `Wm` weight vector mis-shaped (`1 x 4` instead
of `1 x sLen = 1 x 3`) while `Wc` is correct. -/
def cfgBadWm : UkfCfg :=
  { cfgBase with Wm_weight_vector := mkCMat 1 4 [0, 0, 0, 0] }

/-- `cfgBase` with only the `Pyy` output covariance mis-shaped (`2 x 1`
instead of `1 x 1`) while its scratch copy is correct. -/
def cfgBadPyy : UkfCfg :=
  { cfgBase with Pyy_out_covariance := mkCMat 2 1 [0, 0] }

/-- `cfgBase` with `kappa = -1 = -xLen` (and `alpha = 1`, so
`xLen + lambda = alpha^2 * (xLen + kappa) = 0`). -/
def cfgKappaNeg : UkfCfg :=
  { cfgBase with Sc_vector := mkCMat 1 3 [1, 0, -1] }

/-! ### Helper lemmas about `writes` and list access -/

theorem writes_cons (X : List ℚ) (p : Nat × ℚ) (ps : List (Nat × ℚ)) :
    writes X (p :: ps) = writes (X.set p.1 p.2) ps :=
  rfl

theorem writes_singleton (X : List ℚ) (p : Nat × ℚ) :
    writes X [p] = X.set p.1 p.2 :=
  rfl

theorem writes_append (X : List ℚ) (ps qs : List (Nat × ℚ)) :
    writes X (ps ++ qs) = writes (writes X ps) qs :=
  List.foldl_append _ _ _ _

theorem writes_length (X : List ℚ) (ps : List (Nat × ℚ)) :
    (writes X ps).length = X.length := by
  induction ps generalizing X with
  | nil => rfl
  | cons p ps ih => rw [writes_cons, ih, List.length_set]

theorem getD_set_eq (l : List ℚ) (i : Nat) (v d : ℚ) (h : i < l.length) :
    (l.set i v).getD i d = v := by
  simp [List.getD, List.getElem?_set, h]

theorem getD_set_ne (l : List ℚ) {i j : Nat} (v d : ℚ) (h : i ≠ j) :
    (l.set i v).getD j d = l.getD j d := by
  simp [List.getD, List.getElem?_set, h]

theorem writes_getD_not_mem (X : List ℚ) (ps : List (Nat × ℚ)) (k : Nat) (d : ℚ)
    (h : ∀ p ∈ ps, p.1 ≠ k) : (writes X ps).getD k d = X.getD k d := by
  induction ps generalizing X with
  | nil => rfl
  | cons p ps ih =>
      rw [writes_cons, ih _ fun q hq => h q (List.mem_cons_of_mem p hq)]
      exact getD_set_ne X _ _ (h p (List.mem_cons_self p ps))

theorem writes_map_range_getD (g : Nat → Nat) (v : Nat → ℚ) (n : Nat) (X : List ℚ)
    (i : Nat) (d : ℚ) (hi : i < n)
    (inj : ∀ a b, a < n → b < n → g a = g b → a = b)
    (hk : g i < X.length) :
    (writes X ((List.range n).map fun t => (g t, v t))).getD (g i) d = v i := by
  induction n with
  | zero => omega
  | succ n ih =>
      rw [List.range_succ, List.map_append, writes_append, List.map_singleton,
        writes_singleton]
      by_cases hin : i = n
      · rw [hin]
        exact getD_set_eq _ _ _ _ (by rw [writes_length]; rw [← hin]; exact hk)
      · have hne : g n ≠ g i := fun h => hin (inj i n (by omega) (by omega) h.symm)
        rw [getD_set_ne _ _ _ hne]
        exact ih (by omega) fun a b ha hb => inj a b (by omega) (by omega)

theorem grid_index_inj {s i i' j j' : Nat} (hj : j < s) (hj' : j' < s)
    (h : s * i + j = s * i' + j') : i = i' ∧ j = j' := by
  have h1 : (s * i + j) / s = i := by
    rw [Nat.mul_add_div (by omega), Nat.div_eq_of_lt hj]
    omega
  have h2 : (s * i' + j') / s = i' := by
    rw [Nat.mul_add_div (by omega), Nat.div_eq_of_lt hj']
    omega
  have h3 : (s * i + j) % s = j := by
    rw [Nat.mul_add_mod, Nat.mod_eq_of_lt hj]
  have h4 : (s * i' + j') % s = j' := by
    rw [Nat.mul_add_mod, Nat.mod_eq_of_lt hj']
  refine ⟨?_, ?_⟩
  · rw [← h1, h, h2]
  · rw [← h3, h, h4]

/-! ### Helper lemmas about the weight fill loop -/

theorem ukf_weight_fold_succ (wv : ℚ) (n : Nat) (p : List ℚ × List ℚ) :
    ukf_weight_fold wv (n + 1) p =
      ((ukf_weight_fold wv n p).1.set (n + 1) wv,
       (ukf_weight_fold wv n p).2.set (n + 1)
         (((ukf_weight_fold wv n p).1.set (n + 1) wv).getD (n + 1) 0)) := by
  unfold ukf_weight_fold
  rw [List.range_succ, List.foldl_append]
  rfl

theorem ukf_weight_fold_fst_length (wv : ℚ) (n : Nat) (p : List ℚ × List ℚ) :
    (ukf_weight_fold wv n p).1.length = p.1.length := by
  induction n with
  | zero => rfl
  | succ n ih => rw [ukf_weight_fold_succ]; simp [List.length_set, ih]

theorem ukf_weight_fold_snd_length (wv : ℚ) (n : Nat) (p : List ℚ × List ℚ) :
    (ukf_weight_fold wv n p).2.length = p.2.length := by
  induction n with
  | zero => rfl
  | succ n ih => rw [ukf_weight_fold_succ]; simp [List.length_set, ih]

theorem ukf_weight_fold_fst_getD_zero (wv : ℚ) (n : Nat) (p : List ℚ × List ℚ) (d : ℚ) :
    (ukf_weight_fold wv n p).1.getD 0 d = p.1.getD 0 d := by
  induction n with
  | zero => rfl
  | succ n ih =>
      rw [ukf_weight_fold_succ]
      show ((ukf_weight_fold wv n p).1.set (n + 1) wv).getD 0 d = p.1.getD 0 d
      rw [getD_set_ne _ _ _ (by omega), ih]

theorem ukf_weight_fold_snd_getD_zero (wv : ℚ) (n : Nat) (p : List ℚ × List ℚ) (d : ℚ) :
    (ukf_weight_fold wv n p).2.getD 0 d = p.2.getD 0 d := by
  induction n with
  | zero => rfl
  | succ n ih =>
      rw [ukf_weight_fold_succ]
      show ((ukf_weight_fold wv n p).2.set (n + 1) _).getD 0 d = p.2.getD 0 d
      rw [getD_set_ne _ _ _ (by omega), ih]

theorem ukf_weight_fold_fst_getD (wv : ℚ) (n : Nat) (p : List ℚ × List ℚ) (i : Nat)
    (h1 : 1 ≤ i) (h2 : i ≤ n) (hm : i < p.1.length) :
    (ukf_weight_fold wv n p).1.getD i 0 = wv := by
  induction n with
  | zero => omega
  | succ n ih =>
      rw [ukf_weight_fold_succ]
      by_cases hin : i = n + 1
      · rw [hin]
        exact getD_set_eq _ _ _ _ (by rw [ukf_weight_fold_fst_length]; omega)
      · show ((ukf_weight_fold wv n p).1.set (n + 1) wv).getD i 0 = wv
        rw [getD_set_ne _ _ _ (by omega)]
        exact ih (by omega)

theorem ukf_weight_fold_snd_getD (wv : ℚ) (n : Nat) (p : List ℚ × List ℚ) (i : Nat)
    (h1 : 1 ≤ i) (h2 : i ≤ n) (hm : i < p.1.length) (hc : i < p.2.length) :
    (ukf_weight_fold wv n p).2.getD i 0 = wv := by
  induction n with
  | zero => omega
  | succ n ih =>
      rw [ukf_weight_fold_succ]
      by_cases hin : i = n + 1
      · rw [hin]
        have hv : ((ukf_weight_fold wv n p).1.set (n + 1) wv).getD (n + 1) 0 = wv :=
          getD_set_eq _ _ _ _ (by rw [ukf_weight_fold_fst_length]; omega)
        rw [hv]
        exact getD_set_eq _ _ _ _ (by rw [ukf_weight_fold_snd_length]; omega)
      · show ((ukf_weight_fold wv n p).2.set (n + 1) _).getD i 0 = wv
        rw [getD_set_ne _ _ _ (by omega)]
        exact ih (by omega)

theorem ukf_weight_fold_fst_list (wv : ℚ) (n : Nat) (p : List ℚ × List ℚ)
    (hf : p.1.length = n + 1) :
    (ukf_weight_fold wv n p).1 = p.1.getD 0 0 :: List.replicate n wv := by
  apply List.ext_getElem
  · rw [ukf_weight_fold_fst_length, hf]
    simp
  · intro i h1 h2
    rw [← List.getD_eq_getElem _ 0 h1]
    rcases i with _ | i
    · rw [ukf_weight_fold_fst_getD_zero]
      simp
    · rw [ukf_weight_fold_fst_getD wv n p (i + 1) (by omega)
        (by rw [ukf_weight_fold_fst_length, hf] at h1; omega)
        (by rw [ukf_weight_fold_fst_length] at h1; omega)]
      simp

/-! ### Helper lemmas for the measurement update -/

theorem mtx_zeros_getD (l : List ℚ) (i : Nat) : (mtx_zeros l).getD i 0 = 0 := by
  induction l generalizing i with
  | nil => cases i <;> rfl
  | cons a l ih =>
      cases i with
      | zero => rfl
      | succ i => exact ih i

theorem mtx_sub_self (l : List ℚ) : mtx_sub l l = mtx_zeros l := by
  induction l with
  | nil => rfl
  | cons a l ih =>
      show (a - a) :: mtx_sub l l = 0 :: mtx_zeros l
      rw [sub_self, ih]

theorem foldl_acc_id (l : List Nat) (c : ℚ) : l.foldl (fun acc _ => acc) c = c := by
  induction l generalizing c with
  | nil => rfl
  | cons a l ih => exact ih c

theorem map_zero_replicate {α : Type} (l : List α) :
    (l.map fun _ => (0 : ℚ)) = List.replicate l.length 0 := by
  induction l with
  | nil => rfl
  | cons a l ih => show (0 : ℚ) :: _ = _; rw [ih]; rfl

theorem mtx_mul_zero_right (n m : Nat) (A B : List ℚ) (hB : ∀ i, B.getD i 0 = 0) :
    mtx_mul n m 1 A B = List.replicate n 0 := by
  unfold mtx_mul
  have hrow : ∀ t : Nat,
      (List.range m).foldl
        (fun acc k => acc + A.getD (m * (t / 1) + k) 0 * B.getD (1 * k + t % 1) 0) 0 = 0 := by
    intro t
    have hfn : (fun (acc : ℚ) (k : Nat) =>
        acc + A.getD (m * (t / 1) + k) 0 * B.getD (1 * k + t % 1) 0) =
        fun acc _ => acc := by
      funext acc k
      rw [hB, mul_zero, add_zero]
    rw [hfn, foldl_acc_id]
  calc ((List.range (n * 1)).map fun t =>
          (List.range m).foldl
            (fun acc k => acc + A.getD (m * (t / 1) + k) 0 * B.getD (1 * k + t % 1) 0) 0)
      = (List.range (n * 1)).map fun _ => (0 : ℚ) := by
        exact List.map_congr_left fun t _ => hrow t
    _ = List.replicate n 0 := by
        rw [map_zero_replicate, List.length_range, Nat.mul_one]

theorem zipWith_add_replicate_zero (l : List ℚ) (n : Nat) (h : l.length = n) :
    List.zipWith (· + ·) l (List.replicate n 0) = l := by
  induction l generalizing n with
  | nil => simp
  | cons a l ih =>
      rcases n with _ | n
      · exact absurd h (by simp)
      · show (a + 0) :: List.zipWith (· + ·) l (List.replicate n 0) = a :: l
        rw [add_zero, ih n (by simpa using h)]

/-! ### Helper lemmas for initialization -/

theorem cfgSLen_pos (cfg : UkfCfg) : 0 < cfgSLen cfg := by
  unfold cfgSLen cfgXLen
  omega

theorem ukf_init_weights_cond (cfg : UkfCfg)
    (h1 : cfg.Wm_weight_vector.ncol = cfgSLen cfg)
    (h2 : cfg.Wc_weight_vector.ncol = cfg.Wm_weight_vector.ncol) :
    ukf_init_weights cfg =
      ukf_weight_fold (cfgWi cfg) (cfg.Wm_weight_vector.ncol - 1)
        ((cval cfg.Wm_weight_vector).set 0 (cfgWm0 cfg),
         (cval cfg.Wc_weight_vector).set 0
           (cfgWm0 cfg + (1 - cfgAlpha cfg * cfgAlpha cfg + cfgBetha cfg))) := by
  unfold ukf_init_weights
  rw [if_pos ⟨h1, h2⟩]

theorem ukf_init_Wm_list (cfg : UkfCfg)
    (h1 : cfg.Wm_weight_vector.ncol = cfgSLen cfg)
    (h2 : cfg.Wc_weight_vector.ncol = cfg.Wm_weight_vector.ncol)
    (hLm : (cval cfg.Wm_weight_vector).length = cfgSLen cfg) :
    (ukf_init cfg).1.Wm = cfgWm0 cfg :: List.replicate (cfgSLen cfg - 1) (cfgWi cfg) := by
  have hpos := cfgSLen_pos cfg
  have hWm : (ukf_init cfg).1.Wm = (ukf_init_weights cfg).1 := rfl
  rw [hWm, ukf_init_weights_cond cfg h1 h2,
    ukf_weight_fold_fst_list _ _ _ (by rw [List.length_set, hLm, h1]; omega)]
  congr 1
  · exact getD_set_eq _ _ _ _ (by rw [hLm]; omega)
  · rw [h1]

/-! ### Claims -/

/-- C2: the measurement update inverts a scratch copy of `Pyy` against an
identity matrix, computes the Kalman gain `K = Pxy * inv(Pyy)`, replaces
the measurement vector in place by the innovation `y - y_m`, stores the
posterior state `x = x_m + K*(y - y_m)`, and stores the posterior
covariance `Pxx = P_m - K*Pyy*K'` computed via the intermediate product
`K*Pyy` (which overwrites `Pxy`); this holds for every implementation of
the external inversion contract. -/
theorem ukf_meas_update_spec (lib : MtxLib) (st : UKFState) :
    (ukf_meas_update lib st).Pyy_cpy = (lib.inv st.Pyy (mtx_identity st.yLen)).1 ∧
    (ukf_meas_update lib st).K =
      mtx_mul st.xLen st.yLen st.yLen st.Pxy (lib.inv st.Pyy (mtx_identity st.yLen)).2 ∧
    (ukf_meas_update lib st).y = mtx_sub st.y st.ym ∧
    (ukf_meas_update lib st).x =
      mtx_add st.x
        (mtx_mul st.xLen st.yLen 1 (ukf_meas_update lib st).K (mtx_sub st.y st.ym)) ∧
    (ukf_meas_update lib st).Pxy =
      mtx_mul st.xLen st.yLen st.yLen (ukf_meas_update lib st).K st.Pyy ∧
    (ukf_meas_update lib st).P =
      mtx_sub st.P (mtx_mul_src2tr st.xLen st.yLen st.xLen
        (mtx_mul st.xLen st.yLen st.yLen (ukf_meas_update lib st).K st.Pyy)
        (ukf_meas_update lib st).K) :=
  ⟨rfl, rfl, rfl, rfl, rfl, rfl⟩

/-- C7: when the lower Cholesky factorization of the previous covariance
fails, the sigma-point stage leaves the previous sigma-point matrix `X_p`
entirely unchanged. -/
theorem ukf_sigmapoint_chol_fail_preserves_X (lib : MtxLib) (st : UKFState)
    (h : lib.chol st.P = none) : (ukf_sigmapoint lib st).X = st.X := by
  unfold ukf_sigmapoint
  rw [h]

/-- Witness for C7 at a concrete state and a library whose factorization
fails. -/
theorem ukf_sigmapoint_chol_fail_preserves_X_witness :
    (ukf_sigmapoint libNone stSig).X = stSig.X :=
  ukf_sigmapoint_chol_fail_preserves_X libNone stSig rfl

/-- C8: if the measurement fed into the measurement update exactly equals
the predicted measurement mean `y_m`, the posterior state equals the
predicted mean (`x == x_m`) and `K*(y - y_m) == 0`: both the stored
correction buffer `x_corr` and the product `K * (y - y_m)` itself are the
zero vector, for every implementation of the external inversion contract
(hence for whatever gain `K` it yields).  The claim's phrase "posterior
covariance equals the predicted covariance minus zero" is explicated by
its own "i.e." as exactly this `K*(y - y_m) == 0`: the covariance update
`Pxx = P_m - K*Pyy*K'` (line 551) does not involve the innovation at
all. -/
theorem ukf_meas_update_idempotent (lib : MtxLib) (st : UKFState)
    (h1 : st.y = st.ym) (h2 : st.x.length = st.xLen) :
    (ukf_meas_update lib st).x = st.x ∧
    (ukf_meas_update lib st).x_corr = List.replicate st.xLen 0 ∧
    mtx_mul st.xLen st.yLen 1 (ukf_meas_update lib st).K (mtx_sub st.y st.ym) =
      List.replicate st.xLen 0 := by
  have hzero : mtx_sub st.y st.ym = mtx_zeros st.y := by
    rw [← h1]
    exact mtx_sub_self st.y
  have hcorr : (ukf_meas_update lib st).x_corr = List.replicate st.xLen 0 := by
    show mtx_mul st.xLen st.yLen 1 _ (mtx_sub st.y st.ym) = _
    rw [hzero]
    exact mtx_mul_zero_right _ _ _ _ (mtx_zeros_getD st.y)
  refine ⟨?_, hcorr, hcorr⟩
  show mtx_add st.x (ukf_meas_update lib st).x_corr = st.x
  rw [hcorr]
  exact zipWith_add_replicate_zero st.x st.xLen h2

/-- Witness for C8 at a concrete state whose measurement equals the
predicted measurement mean. -/
theorem ukf_meas_update_idempotent_witness :
    (ukf_meas_update libId (ukf_init cfgBase).1).x = (ukf_init cfgBase).1.x ∧
    (ukf_meas_update libId (ukf_init cfgBase).1).x_corr =
      List.replicate (ukf_init cfgBase).1.xLen 0 ∧
    mtx_mul (ukf_init cfgBase).1.xLen (ukf_init cfgBase).1.yLen 1
        (ukf_meas_update libId (ukf_init cfgBase).1).K
        (mtx_sub (ukf_init cfgBase).1.y (ukf_init cfgBase).1.ym) =
      List.replicate (ukf_init cfgBase).1.xLen 0 :=
  ukf_meas_update_idempotent libId (ukf_init cfgBase).1 rfl rfl

/-- C3: when `ukf_init` is given weight vectors whose lengths both equal
`sLen`, it sets `Wm[0] = lambda/(xLen+lambda)`,
`Wc[0] = Wm[0] + (1 - alpha^2 + beta)`, and
`Wm[i] = Wc[i] = 1/(2*(xLen+lambda))` for every `i` in `1 .. sLen-1`, where
`lambda = alpha^2*(xLen+kappa) - xLen`. -/
theorem ukf_init_weight_formulas (cfg : UkfCfg)
    (h1 : cfg.Wm_weight_vector.ncol = cfgSLen cfg)
    (h2 : cfg.Wc_weight_vector.ncol = cfg.Wm_weight_vector.ncol)
    (hLm : (cval cfg.Wm_weight_vector).length = cfgSLen cfg)
    (hLc : (cval cfg.Wc_weight_vector).length = cfgSLen cfg) :
    (ukf_init cfg).1.lambda =
      cfgAlpha cfg * cfgAlpha cfg * ((cfgXLen cfg : ℚ) + cfgKappa cfg) - (cfgXLen cfg : ℚ) ∧
    (ukf_init cfg).1.Wm.getD 0 0 = cfgLambda cfg / ((cfgXLen cfg : ℚ) + cfgLambda cfg) ∧
    (ukf_init cfg).1.Wc.getD 0 0 =
      (ukf_init cfg).1.Wm.getD 0 0 + (1 - cfgAlpha cfg * cfgAlpha cfg + cfgBetha cfg) ∧
    ∀ i, 1 ≤ i → i < cfgSLen cfg →
      (ukf_init cfg).1.Wm.getD i 0 = 1 / (2 * ((cfgXLen cfg : ℚ) + cfgLambda cfg)) ∧
      (ukf_init cfg).1.Wc.getD i 0 = (ukf_init cfg).1.Wm.getD i 0 := by
  have hpos := cfgSLen_pos cfg
  have hWm : (ukf_init cfg).1.Wm = (ukf_init_weights cfg).1 := rfl
  have hWc : (ukf_init cfg).1.Wc = (ukf_init_weights cfg).2 := rfl
  have hcond := ukf_init_weights_cond cfg h1 h2
  refine ⟨rfl, ?_, ?_, ?_⟩
  · rw [hWm, hcond, ukf_weight_fold_fst_getD_zero,
      getD_set_eq _ _ _ _ (by rw [hLm]; omega)]
    rfl
  · rw [hWm, hWc, hcond, ukf_weight_fold_fst_getD_zero, ukf_weight_fold_snd_getD_zero,
      getD_set_eq _ _ _ _ (by rw [hLc]; omega),
      getD_set_eq _ _ _ _ (by rw [hLm]; omega)]
  · intro i hi1 hi2
    have hm : i < ((cval cfg.Wm_weight_vector).set 0 (cfgWm0 cfg)).length := by
      rw [List.length_set, hLm]
      omega
    have hc : i < ((cval cfg.Wc_weight_vector).set 0
        (cfgWm0 cfg + (1 - cfgAlpha cfg * cfgAlpha cfg + cfgBetha cfg))).length := by
      rw [List.length_set, hLc]
      omega
    refine ⟨?_, ?_⟩
    · rw [hWm, hcond]
      exact ukf_weight_fold_fst_getD _ _ _ i hi1 (by omega) hm
    · rw [hWc, hcond, ukf_weight_fold_snd_getD _ _ _ i hi1 (by omega) hm hc,
        hWm, hcond, ukf_weight_fold_fst_getD _ _ _ i hi1 (by omega) hm]

/-- Witness for C3 at a concrete configuration, instantiated at weight
index 1. -/
theorem ukf_init_weight_formulas_witness :
    (ukf_init cfgBase).1.Wm.getD 1 0 =
      1 / (2 * ((cfgXLen cfgBase : ℚ) + cfgLambda cfgBase)) ∧
    (ukf_init cfgBase).1.Wc.getD 1 0 = (ukf_init cfgBase).1.Wm.getD 1 0 :=
  (ukf_init_weight_formulas cfgBase rfl rfl rfl rfl).2.2.2 1 (by decide) (by decide)

/-- C4 counterexample: with `xLen = 1`, `alpha = 1` (which lies in `(0,1]`)
and `kappa = -1`, the weights computed by `ukf_init` do not sum to 1 over
exact rational arithmetic (`xLen + lambda = alpha^2 * (xLen + kappa) = 0`,
so every weight formula divides by zero; the C float code produces
infinities there, so the sum is not 1 there either). -/
theorem ukf_init_weight_sum_counterexample :
    ¬ (ukf_init cfgKappaNeg).1.Wm.sum = 1 := by
  have h0 : cfgWm0 cfgKappaNeg = 0 := by
    norm_num [cfgWm0, cfgLambda, cfgAlpha, cfgKappa, cfgXLen, cfgKappaNeg, cfgBase,
      mkCMat, cval]
  have hi : cfgWi cfgKappaNeg = 0 := by
    norm_num [cfgWi, cfgLambda, cfgAlpha, cfgKappa, cfgXLen, cfgKappaNeg, cfgBase,
      mkCMat, cval]
  rw [ukf_init_Wm_list cfgKappaNeg rfl rfl rfl, h0, hi]
  norm_num [List.sum_replicate]

/-- C4 (amended): for every `xLen` with `1 ≤ xLen ≤ 127` (so that the
`uint8_t` store of `sLen = 2*xLen+1` does not truncate), `alpha` in
`(0,1]`, `kappa` with `xLen + kappa ≠ 0`, and weight vectors of length
`sLen`, after initialization `sLen` equals `2*xLen+1` and the mean weights
computed by `ukf_init` sum to exactly 1 over rational arithmetic. -/
theorem ukf_init_weight_sum_one (cfg : UkfCfg)
    (hx1 : 1 ≤ cfg.x_system_states.nrow) (hx2 : cfg.x_system_states.nrow ≤ 127)
    (ha1 : 0 < cfgAlpha cfg) (ha2 : cfgAlpha cfg ≤ 1)
    (hk : (cfgXLen cfg : ℚ) + cfgKappa cfg ≠ 0)
    (h1 : cfg.Wm_weight_vector.ncol = cfgSLen cfg)
    (h2 : cfg.Wc_weight_vector.ncol = cfg.Wm_weight_vector.ncol)
    (hLm : (cval cfg.Wm_weight_vector).length = cfgSLen cfg) :
    (ukf_init cfg).1.sLen = 2 * cfg.x_system_states.nrow + 1 ∧
    (ukf_init cfg).1.Wm.sum = 1 := by
  have hx : cfgXLen cfg = cfg.x_system_states.nrow := by
    unfold cfgXLen
    omega
  have hslen : cfgSLen cfg = 2 * cfg.x_system_states.nrow + 1 := by
    unfold cfgSLen
    rw [hx]
    omega
  have hd : (cfgXLen cfg : ℚ) + cfgLambda cfg =
      cfgAlpha cfg * cfgAlpha cfg * ((cfgXLen cfg : ℚ) + cfgKappa cfg) := by
    unfold cfgLambda
    ring
  have hdne : (cfgXLen cfg : ℚ) + cfgLambda cfg ≠ 0 := by
    rw [hd]
    exact mul_ne_zero (mul_ne_zero (ne_of_gt ha1) (ne_of_gt ha1)) hk
  refine ⟨hslen, ?_⟩
  rw [ukf_init_Wm_list cfg h1 h2 hLm, List.sum_cons, List.sum_replicate,
    nsmul_eq_mul]
  have hcount : cfgSLen cfg - 1 = 2 * cfg.x_system_states.nrow := by omega
  rw [hcount]
  unfold cfgWm0 cfgWi
  rw [← hx]
  push_cast
  field_simp
  ring

/-- Reading entry `(k, σ)` (flat index `sLen*k + σ`, `σ ≥ 1`) after the
second sigma-point loop nest: the mean plus or minus the scaled-factor
entry, depending on whether `σ ≤ xLen`. -/
theorem sigma_rest_getD (st : UKFState) (S : List ℚ) (X1 : List ℚ) (k σ : Nat)
    (hk : k < st.xLen) (hσ1 : 1 ≤ σ) (hσ2 : σ < st.sLen)
    (hb : st.sLen * k + σ < X1.length) :
    (writes X1 (sigmaRestPairs st S)).getD (st.sLen * k + σ) 0 =
      if σ ≤ st.xLen then
        clampAt st k (st.x.getD k 0 + S.getD (st.xLen * k + (σ - 1)) 0)
      else
        clampAt st k (st.x.getD k 0 - S.getD (st.xLen * k + (σ - st.xLen - 1)) 0) := by
  have hxpos : 0 < st.xLen := by omega
  have hspos : 0 < st.sLen := by omega
  have hcol : ∀ t, t < (st.sLen - 1) * st.xLen → t / st.xLen + 1 < st.sLen := by
    intro t ht
    have := (Nat.div_lt_iff_lt_mul hxpos).2 ht
    omega
  have hdiv : (st.xLen * (σ - 1) + k) / st.xLen = σ - 1 := by
    rw [Nat.mul_add_div hxpos, Nat.div_eq_of_lt hk]
    omega
  have hmod : (st.xLen * (σ - 1) + k) % st.xLen = k := by
    rw [Nat.mul_add_mod, Nat.mod_eq_of_lt hk]
  have ht0 : st.xLen * (σ - 1) + k < (st.sLen - 1) * st.xLen := by
    have h2 : st.xLen * σ = st.xLen * (σ - 1) + st.xLen := by
      rw [← Nat.mul_succ]
      congr 1
      omega
    have h3 : st.xLen * σ ≤ st.xLen * (st.sLen - 1) := Nat.mul_le_mul_left _ (by omega)
    have h4 : st.xLen * (st.sLen - 1) = (st.sLen - 1) * st.xLen := Nat.mul_comm _ _
    omega
  have hg : st.sLen * ((st.xLen * (σ - 1) + k) % st.xLen) +
      ((st.xLen * (σ - 1) + k) / st.xLen + 1) = st.sLen * k + σ := by
    rw [hmod, hdiv]
    omega
  have hiB : ∀ a b, a < (st.sLen - 1) * st.xLen → b < (st.sLen - 1) * st.xLen →
      st.sLen * (a % st.xLen) + (a / st.xLen + 1) =
        st.sLen * (b % st.xLen) + (b / st.xLen + 1) → a = b := by
    intro a b ha hb2 hab
    obtain ⟨hr, hc2⟩ := grid_index_inj (hcol a ha) (hcol b hb2) hab
    have e1 := Nat.div_add_mod a st.xLen
    have e2 := Nat.div_add_mod b st.xLen
    have hd : a / st.xLen = b / st.xLen := by omega
    have e3 : st.xLen * (a / st.xLen) = st.xLen * (b / st.xLen) := by rw [hd]
    omega
  have happ := writes_map_range_getD
    (fun t => st.sLen * (t % st.xLen) + (t / st.xLen + 1))
    (fun t => if t / st.xLen + 1 ≤ st.xLen then
        clampAt st (t % st.xLen) (st.x.getD (t % st.xLen) 0 +
          S.getD (st.xLen * (t % st.xLen) + (t / st.xLen + 1 - 1)) 0)
      else
        clampAt st (t % st.xLen) (st.x.getD (t % st.xLen) 0 -
          S.getD (st.xLen * (t % st.xLen) + (t / st.xLen + 1 - st.xLen - 1)) 0))
    ((st.sLen - 1) * st.xLen) X1 (st.xLen * (σ - 1) + k) 0 ht0 hiB
    (by show st.sLen * ((st.xLen * (σ - 1) + k) % st.xLen) +
          ((st.xLen * (σ - 1) + k) / st.xLen + 1) < X1.length
        rw [hg]
        exact hb)
  refine Eq.trans (Eq.trans ?_ happ) ?_
  · exact congrArg (fun idx => (writes X1 (sigmaRestPairs st S)).getD idx 0) hg.symm
  · show (if (st.xLen * (σ - 1) + k) / st.xLen + 1 ≤ st.xLen then
        clampAt st ((st.xLen * (σ - 1) + k) % st.xLen)
          (st.x.getD ((st.xLen * (σ - 1) + k) % st.xLen) 0 +
            S.getD (st.xLen * ((st.xLen * (σ - 1) + k) % st.xLen) +
              ((st.xLen * (σ - 1) + k) / st.xLen + 1 - 1)) 0)
      else
        clampAt st ((st.xLen * (σ - 1) + k) % st.xLen)
          (st.x.getD ((st.xLen * (σ - 1) + k) % st.xLen) 0 -
            S.getD (st.xLen * ((st.xLen * (σ - 1) + k) % st.xLen) +
              ((st.xLen * (σ - 1) + k) / st.xLen + 1 - st.xLen - 1)) 0)) = _
    rw [hdiv, hmod]
    have hσ : σ - 1 + 1 = σ := by omega
    rw [hσ]

/-- C1: for every filter state in which the lower Cholesky factorization of
the previous covariance succeeds, the sigma-point generator sets column 0
to the per-state clamped previous mean, and for each state index `i` and
each `j` in `1 .. xLen` sets column `j` to `clamp(x_p[i] + S[i][j-1])` and
column `xLen + j` to `clamp(x_p[i] - S[i][j-1])`, where `S` is the lower
Cholesky factor scaled by `sqrt(xLen + lambda)` and `clampAt` applies the
state's min/max limiter only when its enable flag is set. -/
theorem ukf_sigmapoint_columns (lib : MtxLib) (st : UKFState) (L : List ℚ)
    (hchol : lib.chol st.P = some L)
    (hX : st.X.length = st.xLen * st.sLen)
    (hs : st.sLen = 2 * st.xLen + 1) :
    ∀ i, i < st.xLen →
      (ukf_sigmapoint lib st).X.getD (st.sLen * i) 0 = clampAt st i (st.x.getD i 0) ∧
      ∀ j, 1 ≤ j → j ≤ st.xLen →
        (ukf_sigmapoint lib st).X.getD (st.sLen * i + j) 0 =
          clampAt st i (st.x.getD i 0 +
            (sigmaScaledS lib st L).getD (st.xLen * i + (j - 1)) 0) ∧
        (ukf_sigmapoint lib st).X.getD (st.sLen * i + (st.xLen + j)) 0 =
          clampAt st i (st.x.getD i 0 -
            (sigmaScaledS lib st L).getD (st.xLen * i + (j - 1)) 0) := by
  intro i hi
  have hxpos : 0 < st.xLen := by omega
  have hspos : 0 < st.sLen := by omega
  have hXeq : (ukf_sigmapoint lib st).X =
      writes (writes st.X (sigmaCol0Pairs st))
        (sigmaRestPairs st (sigmaScaledS lib st L)) := by
    unfold ukf_sigmapoint
    rw [hchol]
  have hcol : ∀ t, t < (st.sLen - 1) * st.xLen → t / st.xLen + 1 < st.sLen := by
    intro t ht
    have := (Nat.div_lt_iff_lt_mul hxpos).2 ht
    omega
  have hbnd : ∀ σ, σ < st.sLen →
      st.sLen * i + σ < (writes st.X (sigmaCol0Pairs st)).length := by
    intro σ hσ
    rw [writes_length, hX]
    have h1 : st.sLen * (i + 1) = st.sLen * i + st.sLen := Nat.mul_succ _ _
    have h2 : st.sLen * (i + 1) ≤ st.sLen * st.xLen := Nat.mul_le_mul_left _ (by omega)
    have h3 : st.sLen * st.xLen = st.xLen * st.sLen := Nat.mul_comm _ _
    omega
  refine ⟨?_, ?_⟩
  · rw [hXeq, writes_getD_not_mem]
    · have hb0 : st.sLen * i < st.X.length := by
        rw [hX, Nat.mul_comm st.xLen st.sLen]
        exact mul_lt_mul_of_pos_left hi hspos
      exact writes_map_range_getD (fun t => st.sLen * t)
        (fun t => clampAt st t (st.x.getD t 0)) st.xLen st.X i 0 hi
        (fun a b _ _ hab => Nat.eq_of_mul_eq_mul_left hspos hab) hb0
    · intro p hp
      unfold sigmaRestPairs at hp
      rw [List.mem_map] at hp
      obtain ⟨t, ht, rfl⟩ := hp
      rw [List.mem_range] at ht
      show st.sLen * (t % st.xLen) + (t / st.xLen + 1) ≠ st.sLen * i
      intro heq
      have h0 : st.sLen * (t % st.xLen) + (t / st.xLen + 1) = st.sLen * i + 0 := heq.trans rfl
      exact Nat.succ_ne_zero _ (grid_index_inj (hcol t ht) hspos h0).2
  · intro j hj1 hj2
    refine ⟨?_, ?_⟩
    · rw [hXeq, sigma_rest_getD st _ _ i j hi hj1 (by omega) (hbnd j (by omega))]
      rw [if_pos hj2]
    · rw [hXeq, sigma_rest_getD st _ _ i (st.xLen + j) hi (by omega) (by omega)
        (hbnd (st.xLen + j) (by omega))]
      rw [if_neg (by omega)]
      have hidx : st.xLen + j - st.xLen - 1 = j - 1 := by omega
      rw [hidx]

/-- Witness for C1 at a concrete state and library, instantiated at state
row 0 and offset column 1. -/
theorem ukf_sigmapoint_columns_witness :
    (ukf_sigmapoint libSig stSig).X.getD (stSig.sLen * 0 + 1) 0 =
      clampAt stSig 0 (stSig.x.getD 0 0 +
        (sigmaScaledS libSig stSig [2]).getD (stSig.xLen * 0 + (1 - 1)) 0) :=
  (((ukf_sigmapoint_columns libSig stSig [2] rfl rfl rfl) 0 (by decide)).2
    1 (by decide) (by decide)).1

/-- Witness for C4 (amended) at a concrete configuration. -/
theorem ukf_init_weight_sum_one_witness :
    (ukf_init cfgBase).1.sLen = 2 * cfgBase.x_system_states.nrow + 1 ∧
    (ukf_init cfgBase).1.Wm.sum = 1 :=
  ukf_init_weight_sum_one cfgBase (by decide) (by decide)
    (by norm_num [cfgAlpha, cfgBase, mkCMat, cval])
    (by norm_num [cfgAlpha, cfgBase, mkCMat, cval])
    (by norm_num [cfgXLen, cfgKappa, cfgBase, mkCMat, cval])
    rfl rfl rfl

/-- C5 (bug demonstration): with the single observation callback NULL
(`yLen = 1`, `sLen = 3`) and a stale measurement sigma buffer `[9, 7, 7]`,
the observation transform zeroes flat index `sLen*sigmaIdx + yIdx`
(line 452) instead of the entry `Y_m[yIdx][sigmaIdx]` it later reads, so
the entries `Y_m[0][1]` and `Y_m[0][2]` keep their stale value 7, and the
predicted measurement mean accumulates 14 rather than only zeros. -/
theorem ukf_mean_pred_output_null_callback_bug :
    (ukf_mean_pred_output stC5).Y.getD 1 0 = 7 ∧
    (ukf_mean_pred_output stC5).Y.getD 2 0 = 7 ∧
    (ukf_mean_pred_output stC5).ym.getD 0 0 = 14 := by
  norm_num [ukf_mean_pred_output, stC5, ukf_init, ukf_init_weights, ukf_weight_fold,
    cfgSLen, cfgXLen, cfgYLen, cfgAlpha, cfgBetha, cfgKappa, cfgLambda, cfgWm0, cfgWi,
    cfgNoObs, cfgBase, mkCMat, cval, mtx_zeros, List.range_succ]

/-- C6 (bug demonstration): a configuration in which only `Wm` is
mis-shaped (`1 x 4` while `Wc` is a correct `1 x 3`), and one in which only
`Pyy` is mis-shaped (`2 x 1` while its scratch copy is a correct `1 x 1`),
are both accepted: `ukf_init` returns 0 (success) although the claim — and
the validator's own comments — require a failure for every single
mis-shaped mandatory matrix (the `&&` at lines 81-82 and 145-146 demands
both matrices of the pair to be mis-shaped). -/
theorem ukf_dimension_check_single_mismatch_accepted :
    (ukf_init cfgBadWm).2 = 0 ∧ (ukf_init cfgBadPyy).2 = 0 := by
  constructor <;> rfl

/-- C9 (bug demonstration): `ukf_init` wires `prev.u_p` to `u_system_input`
itself (line 256), so the end-of-step copy (lines 300-310) is a self-copy
and the prediction callbacks of the following step receive the input
written for the current cycle, not the one from the preceding cycle.
Concretely: after a first step with input 5, the caller writes input 7 and
steps again; the recording prediction callback stores 7 (the current
input), not 5 (the previous cycle's input that the claim promises). -/
theorem ukf_step_prev_input_sees_current :
    (ukf_step libId { ukf_step libId (ukf_init cfgBase).1 with u := some [7] }).X.getD 0 0
      = 7 ∧
    ¬ (ukf_step libId { ukf_step libId (ukf_init cfgBase).1 with u := some [7] }).X.getD 0 0
      = 5 := by
  have h : (ukf_step libId
      { ukf_step libId (ukf_init cfgBase).1 with u := some [7] }).X.getD 0 0 = 7 := by
    norm_num [ukf_step, ukf_prev_input_copy, ukf_meas_update, ukf_calc_covariances,
      ukf_mean_pred_output, ukf_mean_pred_state, ukf_sigmapoint, sigmaCol0Pairs,
      sigmaScaledS, sigmaRestPairs, writes, clampAt, limsAt, ukf_state_limiter,
      mtx_zeros, mtx_mul_scalar, mtx_add, mtx_sub, mtx_mul, mtx_mul_src2tr, mtx_identity,
      ukf_init, ukf_init_weights, ukf_weight_fold,
      cfgSLen, cfgXLen, cfgYLen, cfgAlpha, cfgBetha, cfgKappa, cfgLambda, cfgWm0, cfgWi,
      cfgBase, mkCMat, cval, libId, List.range_succ]
  refine ⟨h, ?_⟩
  rw [h]
  norm_num

/-- C10: whenever some output's observation callback is NULL and
`yLen < sLen`, the zero-forcing write addresses the `yLen x sLen`
measurement sigma-point matrix at flat index `sLen*sigmaIdx + outIdx`, and
for the last sigma column that index reaches at least `yLen*sLen` (out of
bounds); under the checked embedding this branch is reachable from the
public step operation: on a configuration that the dimension validator
accepts (`ukf_init` status 0) with one NULL observation callback, the
checked step returns `none`. -/
theorem ukf_step_chk_oob_reachable (yLen sLen outIdx : Nat)
    (h1 : outIdx < yLen) (h2 : yLen < sLen) :
    yLen * sLen ≤ sLen * (sLen - 1) + outIdx ∧
    (ukf_init cfgNoObs).2 = 0 ∧
    ukf_step_chk libId (ukf_init cfgNoObs).1 = none := by
  refine ⟨?_, rfl, ?_⟩
  · have h3 : yLen * sLen ≤ (sLen - 1) * sLen := Nat.mul_le_mul_right _ (by omega)
    have h4 : (sLen - 1) * sLen = sLen * (sLen - 1) := Nat.mul_comm _ _
    omega
  · norm_num [ukf_step_chk, ukf_mean_pred_output_chk, ukf_mean_pred_state, ukf_sigmapoint,
      sigmaCol0Pairs, sigmaScaledS, sigmaRestPairs, writes, clampAt, limsAt,
      ukf_state_limiter, setChecked, mtx_zeros, mtx_mul_scalar, mtx_identity,
      ukf_init, ukf_init_weights, ukf_weight_fold,
      cfgSLen, cfgXLen, cfgYLen, cfgAlpha, cfgBetha, cfgKappa, cfgLambda, cfgWm0, cfgWi,
      cfgNoObs, cfgBase, mkCMat, cval, libId, List.range_succ]

/-- Witness for C10 at `yLen = 1`, `sLen = 3`, output index 0. -/
theorem ukf_step_chk_oob_reachable_witness :
    1 * 3 ≤ 3 * (3 - 1) + 0 ∧
    (ukf_init cfgNoObs).2 = 0 ∧
    ukf_step_chk libId (ukf_init cfgNoObs).1 = none :=
  ukf_step_chk_oob_reachable 1 3 0 (by decide) (by decide)
